import Mathlib

/-!
Verification of the exchange-reconciliation core of the `metal_lci2bw`
Excel-to-Brightway LCI importer (`import_lci_bw2.py` / `import_lci_bw25.py`).

The Python code is shallowly embedded: strings are lists of characters,
Python dicts become association lists with insertion-order replacement
semantics, dynamically typed values become the `PyVal` inductive, and the
Brightway database store becomes an explicit `Store` value threaded through
the synthetic-flow factory.
-/

namespace LCI

/-- Python strings are modelled as lists of characters. -/
abbrev Str := List Char

/-- The whitespace characters recognised by Python `str.split()` /
`str.strip()` (ASCII subset), identified by code point. -/
def pyIsSpace (c : Char) : Bool :=
  c.toNat == 32 || c.toNat == 9 || c.toNat == 10 || c.toNat == 13 ||
    c.toNat == 11 || c.toNat == 12

/-- Python `str.lower()` (ASCII letters, matching `Char.toLower`). -/
def pyLower (s : Str) : Str :=
  s.map Char.toLower

/-- Python `str.strip()`: drop leading and trailing whitespace. -/
def pyStrip (s : Str) : Str :=
  ((s.dropWhile pyIsSpace).reverse.dropWhile pyIsSpace).reverse

/-- Structurally recursive worker for `pySplit`; the fuel bounds the string
length so that recursion on `dropWhile` is admissible. -/
def pySplitF : Nat → Str → List Str
  | _, [] => []
  | 0, _ :: _ => []
  | fuel + 1, c :: rest =>
    if pyIsSpace c then pySplitF fuel rest
    else (c :: rest.takeWhile (fun x => !pyIsSpace x)) ::
      pySplitF fuel (rest.dropWhile (fun x => !pyIsSpace x))

/-- Python `str.split()` with no separator: split on whitespace runs,
dropping empty fields. -/
def pySplit (s : Str) : List Str := pySplitF s.length s

/-- Python `" ".join(ws)`. -/
def joinSpace : List Str → Str
  | [] => []
  | [w] => w
  | w :: ws => w ++ ' ' :: joinSpace ws

/-- `_norm(s)` from the source:
`" ".join(s.strip().lower().split())`. -/
def norm (s : Str) : Str :=
  joinSpace (pySplit (pyLower (pyStrip s)))

/-! ### Character-level facts about `Char.toLower` -/

theorem toNat_ofNat_valid {n : Nat} (h : n.isValidChar) : (Char.ofNat n).toNat = n := by
  simp only [Char.ofNat, dif_pos h, Char.ofNatAux, Char.toNat]
  simp [UInt32.toNat]

theorem isValidChar_of_le (n : Nat) (h : n ≤ 122) : n.isValidChar :=
  Or.inl (by omega)

theorem toLower_toNat (c : Char) :
    (Char.toLower c).toNat = if 65 ≤ c.toNat ∧ c.toNat ≤ 90 then c.toNat + 32 else c.toNat := by
  unfold Char.toLower
  split
  · next h =>
    rw [if_pos (by omega)]
    exact toNat_ofNat_valid (isValidChar_of_le _ (by omega))
  · next h =>
    rw [if_neg (by omega)]

theorem char_toNat_inj {a b : Char} (h : a.toNat = b.toNat) : a = b := by
  have h2 := congrArg Char.ofNat h
  rwa [Char.ofNat_toNat, Char.ofNat_toNat] at h2

theorem pyIsSpace_toLower (c : Char) : pyIsSpace (Char.toLower c) = pyIsSpace c := by
  simp only [pyIsSpace, toLower_toNat]
  split
  · next h =>
    have l : (c.toNat + 32 == 32 || c.toNat + 32 == 9 || c.toNat + 32 == 10 ||
        c.toNat + 32 == 13 || c.toNat + 32 == 11 || c.toNat + 32 == 12) = false := by
      simp only [Bool.or_eq_false_iff, beq_eq_false_iff_ne, ne_eq]
      omega
    have r : (c.toNat == 32 || c.toNat == 9 || c.toNat == 10 ||
        c.toNat == 13 || c.toNat == 11 || c.toNat == 12) = false := by
      simp only [Bool.or_eq_false_iff, beq_eq_false_iff_ne, ne_eq]
      omega
    rw [l, r]
  · rfl

theorem toLower_toLower (c : Char) : Char.toLower (Char.toLower c) = Char.toLower c := by
  apply char_toNat_inj
  rw [toLower_toNat, toLower_toNat]
  by_cases h : 65 ≤ c.toNat ∧ c.toNat ≤ 90
  · rw [if_pos h, if_neg (by omega)]
  · rw [if_neg h, if_neg h]

/-! ### Splitting lemmas -/

/-- A string consisting solely of whitespace. -/
def allSpace (u : Str) : Prop := ∀ c ∈ u, pyIsSpace c = true

instance (u : Str) : Decidable (allSpace u) := by
  unfold allSpace
  infer_instance

theorem pySplitF_fuel {f1 : Nat} :
    ∀ {f2 : Nat} {s : Str}, s.length ≤ f1 → s.length ≤ f2 →
      pySplitF f1 s = pySplitF f2 s := by
  induction f1 with
  | zero =>
    intro f2 s h1 _
    have hs : s = [] := List.length_eq_zero.mp (Nat.le_zero.mp h1)
    subst hs
    cases f2 <;> rfl
  | succ g1 ih =>
    intro f2 s h1 h2
    cases s with
    | nil => cases f2 <;> rfl
    | cons c rest =>
      cases f2 with
      | zero => exact absurd h2 (by simp)
      | succ g2 =>
        simp only [List.length_cons, Nat.succ_le_succ_iff] at h1 h2
        simp only [pySplitF]
        by_cases hc : pyIsSpace c = true
        · rw [if_pos hc, if_pos hc]
          exact ih h1 h2
        · rw [if_neg hc, if_neg hc]
          have hd := (List.dropWhile_sublist
            (l := rest) (fun x => !pyIsSpace x)).length_le
          rw [ih (Nat.le_trans hd h1) (Nat.le_trans hd h2)]

theorem pySplit_cons_space {c : Char} (h : pyIsSpace c = true) (rest : Str) :
    pySplit (c :: rest) = pySplit rest := by
  show pySplitF (rest.length + 1) (c :: rest) = pySplitF rest.length rest
  rw [pySplitF, if_pos h]

theorem pySplit_cons_nonspace {c : Char} (h : pyIsSpace c = false) (rest : Str) :
    pySplit (c :: rest) = (c :: rest.takeWhile (fun x => !pyIsSpace x)) ::
      pySplit (rest.dropWhile (fun x => !pyIsSpace x)) := by
  show pySplitF (rest.length + 1) (c :: rest) = _
  rw [pySplitF, if_neg (by simp [h])]
  have hd := (List.dropWhile_sublist (l := rest) (fun x => !pyIsSpace x)).length_le
  rw [pySplitF_fuel hd (Nat.le_refl _)]
  rfl

theorem takeWhile_append_cons_of_neg {P : Char → Bool} {c : Char} (hc : P c = false) :
    ∀ (a b : Str), (a ++ c :: b).takeWhile P = a.takeWhile P
  | [], b => by simp [List.takeWhile_cons, hc]
  | d :: a', b => by
    by_cases hd : P d = true
    · simp only [List.cons_append, List.takeWhile_cons, hd, if_true]
      rw [takeWhile_append_cons_of_neg hc a' b]
    · simp only [List.cons_append, List.takeWhile_cons,
        Bool.not_eq_true] at hd ⊢
      simp [hd]

theorem dropWhile_append_cons_of_neg {P : Char → Bool} {c : Char} (hc : P c = false) :
    ∀ (a b : Str), (a ++ c :: b).dropWhile P = a.dropWhile P ++ c :: b
  | [], b => by simp [List.dropWhile_cons, hc]
  | d :: a', b => by
    by_cases hd : P d = true
    · simp only [List.cons_append, List.dropWhile_cons, hd, if_true]
      exact dropWhile_append_cons_of_neg hc a' b
    · simp only [List.cons_append, List.dropWhile_cons,
        Bool.not_eq_true] at hd ⊢
      simp [hd]

theorem pySplit_leading_space {u : Str} (hu : allSpace u) (b : Str) :
    pySplit (u ++ b) = pySplit b := by
  induction u with
  | nil => rfl
  | cons c u' ih =>
    rw [List.cons_append, pySplit_cons_space (hu c (List.mem_cons_self c u'))]
    exact ih (fun x hx => hu x (List.mem_cons_of_mem c hx))

theorem pySplit_allSpace {u : Str} (hu : allSpace u) : pySplit u = [] := by
  have h := pySplit_leading_space hu []
  rw [List.append_nil] at h
  exact h.trans rfl

theorem pySplit_append_space {c : Char} (hc : pyIsSpace c = true) :
    ∀ (a b : Str), pySplit (a ++ c :: b) = pySplit a ++ pySplit b
  | [], b => by rw [List.nil_append, pySplit_cons_space hc]; rfl
  | d :: a', b => by
    by_cases hd : pyIsSpace d = true
    · rw [List.cons_append, pySplit_cons_space hd, pySplit_cons_space hd]
      exact pySplit_append_space hc a' b
    · rw [Bool.not_eq_true] at hd
      have hc' : (fun x => !pyIsSpace x) c = false := by simp [hc]
      rw [List.cons_append, pySplit_cons_nonspace hd,
        pySplit_cons_nonspace hd,
        takeWhile_append_cons_of_neg hc' a' b,
        dropWhile_append_cons_of_neg hc' a' b,
        pySplit_append_space hc (a'.dropWhile (fun x => !pyIsSpace x)) b,
        List.cons_append]
termination_by a _ => a.length
decreasing_by
  · simp only [List.length_cons]; omega
  · simp only [List.length_cons]
    exact Nat.lt_succ_of_le (List.dropWhile_sublist _).length_le

theorem pySplit_trailing_space {u : Str} (hu : allSpace u) (b : Str) :
    pySplit (b ++ u) = pySplit b := by
  cases u with
  | nil => rw [List.append_nil]
  | cons c u' =>
    rw [pySplit_append_space (hu c (List.mem_cons_self c u')) b u',
      pySplit_allSpace (fun x hx => hu x (List.mem_cons_of_mem c hx)),
      List.append_nil]

theorem pySplit_words_good :
    ∀ (s : Str), ∀ w ∈ pySplit s, w ≠ [] ∧ ∀ c ∈ w, pyIsSpace c = false
  | [] => by intro w hw; cases hw
  | c :: rest => by
    by_cases hc : pyIsSpace c = true
    · rw [pySplit_cons_space hc]
      exact pySplit_words_good rest
    · rw [Bool.not_eq_true] at hc
      rw [pySplit_cons_nonspace hc]
      intro w hw
      rcases List.mem_cons.mp hw with h | h
      · subst h
        refine ⟨by simp, fun x hx => ?_⟩
        rcases List.mem_cons.mp hx with rfl | hx'
        · exact hc
        · have h2 := List.mem_takeWhile_imp hx'
          simpa using h2
      · exact pySplit_words_good (rest.dropWhile (fun x => !pyIsSpace x)) w h
termination_by s => s.length
decreasing_by
  · simp only [List.length_cons]; omega
  · simp only [List.length_cons]
    exact Nat.lt_succ_of_le (List.dropWhile_sublist _).length_le

theorem pySplit_words_subset :
    ∀ (s : Str), ∀ w ∈ pySplit s, ∀ c ∈ w, c ∈ s
  | [] => by intro w hw; cases hw
  | c :: rest => by
    by_cases hc : pyIsSpace c = true
    · rw [pySplit_cons_space hc]
      intro w hw x hx
      exact List.mem_cons_of_mem c (pySplit_words_subset rest w hw x hx)
    · rw [Bool.not_eq_true] at hc
      rw [pySplit_cons_nonspace hc]
      intro w hw x hx
      rcases List.mem_cons.mp hw with h | h
      · subst h
        rcases List.mem_cons.mp hx with rfl | hx'
        · exact List.mem_cons_self x rest
        · exact List.mem_cons_of_mem c
            ((List.takeWhile_sublist _).subset hx')
      · exact List.mem_cons_of_mem c
          ((List.dropWhile_sublist _).subset
            (pySplit_words_subset (rest.dropWhile (fun x => !pyIsSpace x)) w h x hx))
termination_by s => s.length
decreasing_by
  · simp only [List.length_cons]; omega
  · simp only [List.length_cons]
    exact Nat.lt_succ_of_le (List.dropWhile_sublist _).length_le

theorem pySplit_word {w : Str} (hne : w ≠ [])
    (hns : ∀ c ∈ w, pyIsSpace c = false) : pySplit w = [w] := by
  cases w with
  | nil => exact absurd rfl hne
  | cons c w' =>
    have hc : pyIsSpace c = false := hns c (List.mem_cons_self c w')
    rw [pySplit_cons_nonspace hc]
    have ht : w'.takeWhile (fun x => !pyIsSpace x) = w' :=
      List.takeWhile_eq_self_iff.mpr
        (fun x hx => by simp [hns x (List.mem_cons_of_mem c hx)])
    have hd : w'.dropWhile (fun x => !pyIsSpace x) = [] :=
      List.dropWhile_eq_nil_iff.mpr
        (fun x hx => by simp [hns x (List.mem_cons_of_mem c hx)])
    rw [ht, hd]
    rfl

theorem pySplit_joinSpace :
    ∀ (ws : List Str),
      (∀ w ∈ ws, w ≠ [] ∧ ∀ c ∈ w, pyIsSpace c = false) →
      pySplit (joinSpace ws) = ws
  | [], _ => rfl
  | [w], h => by
    have hw := h w (List.mem_cons_self w [])
    rw [joinSpace]
    exact pySplit_word hw.1 hw.2
  | w :: x :: ws, h => by
    have hw := h w (List.mem_cons_self w (x :: ws))
    show pySplit (w ++ ' ' :: joinSpace (x :: ws)) = w :: x :: ws
    rw [pySplit_append_space (by decide) w (joinSpace (x :: ws)),
      pySplit_word hw.1 hw.2,
      pySplit_joinSpace (x :: ws) (fun v hv => h v (List.mem_cons_of_mem w hv))]
    rfl

/-! ### Stripping and lowercasing interact trivially with splitting -/

theorem pySplit_dropWhile_leading (s : Str) :
    pySplit (s.dropWhile pyIsSpace) = pySplit s := by
  induction s with
  | nil => rfl
  | cons c rest ih =>
    by_cases hc : pyIsSpace c = true
    · rw [List.dropWhile_cons_of_pos hc, ih, pySplit_cons_space hc]
    · rw [List.dropWhile_cons_of_neg (by simp [hc])]

theorem rstrip_decomp {α : Type} (p : α → Bool) (l : List α) :
    l = (l.reverse.dropWhile p).reverse ++ (l.reverse.takeWhile p).reverse := by
  have h := congrArg List.reverse
    (List.takeWhile_append_dropWhile (p := p) (l := l.reverse))
  rw [List.reverse_append, List.reverse_reverse] at h
  exact h.symm

theorem pySplit_strip (s : Str) : pySplit (pyStrip s) = pySplit s := by
  unfold pyStrip
  have hdecomp := rstrip_decomp pyIsSpace (s.dropWhile pyIsSpace)
  have hsp : allSpace ((s.dropWhile pyIsSpace).reverse.takeWhile pyIsSpace).reverse := by
    intro x hx
    rw [List.mem_reverse] at hx
    exact List.mem_takeWhile_imp hx
  calc pySplit ((s.dropWhile pyIsSpace).reverse.dropWhile pyIsSpace).reverse
      = pySplit (((s.dropWhile pyIsSpace).reverse.dropWhile pyIsSpace).reverse ++
          ((s.dropWhile pyIsSpace).reverse.takeWhile pyIsSpace).reverse) :=
        (pySplit_trailing_space hsp _).symm
    _ = pySplit (s.dropWhile pyIsSpace) := by rw [← hdecomp]
    _ = pySplit s := pySplit_dropWhile_leading s

theorem space_comp_lower : (pyIsSpace ∘ Char.toLower) = pyIsSpace :=
  funext pyIsSpace_toLower

theorem pyLower_strip (s : Str) : pyLower (pyStrip s) = pyStrip (pyLower s) := by
  unfold pyStrip pyLower
  rw [List.dropWhile_map, space_comp_lower, ← List.map_reverse,
    List.dropWhile_map, space_comp_lower, ← List.map_reverse]

/-- `norm` only depends on the lowercased string: stripping is absorbed by
the splitting step. -/
theorem norm_eq_join_split_lower (s : Str) :
    norm s = joinSpace (pySplit (pyLower s)) := by
  unfold norm
  rw [pyLower_strip, pySplit_strip]

theorem pyLower_fixed {s : Str} (h : ∀ c ∈ s, Char.toLower c = c) :
    pyLower s = s := by
  unfold pyLower
  rw [List.map_congr_left h, List.map_id']

theorem mem_pyLower_fixed {c : Char} {s : Str} (h : c ∈ pyLower s) :
    Char.toLower c = c := by
  obtain ⟨a, _, rfl⟩ := List.mem_map.mp h
  exact toLower_toLower a

theorem joinSpace_chars :
    ∀ {ws : List Str} {c : Char}, c ∈ joinSpace ws → c = ' ' ∨ ∃ w ∈ ws, c ∈ w
  | [], _, h => by cases h
  | [w], c, h => Or.inr ⟨w, List.mem_cons_self w [], h⟩
  | w :: x :: ws, c, h => by
    rw [show joinSpace (w :: x :: ws) = w ++ ' ' :: joinSpace (x :: ws) from rfl] at h
    rcases List.mem_append.mp h with h | h
    · exact Or.inr ⟨w, List.mem_cons_self w (x :: ws), h⟩
    · rcases List.mem_cons.mp h with rfl | h
      · exact Or.inl rfl
      · rcases joinSpace_chars h with h | ⟨v, hv, hc⟩
        · exact Or.inl h
        · exact Or.inr ⟨v, List.mem_cons_of_mem w hv, hc⟩

theorem pyLower_norm (s : Str) : pyLower (norm s) = norm s := by
  apply pyLower_fixed
  intro c hc
  rw [norm_eq_join_split_lower] at hc
  rcases joinSpace_chars hc with rfl | ⟨w, hw, hcw⟩
  · rfl
  · exact mem_pyLower_fixed (pySplit_words_subset _ w hw c hcw)

theorem allSpace_pyLower {u : Str} (hu : allSpace u) : allSpace (pyLower u) := by
  intro c hc
  obtain ⟨a, ha, rfl⟩ := List.mem_map.mp hc
  rw [pyIsSpace_toLower]
  exact hu a ha

theorem pySplit_lower_surround {a b w : Str} (hw : allSpace w) (hwne : w ≠ []) :
    pySplit (pyLower (a ++ w ++ b)) = pySplit (pyLower a) ++ pySplit (pyLower b) := by
  cases w with
  | nil => exact absurd rfl hwne
  | cons c w' =>
    have hmap : pyLower (a ++ (c :: w') ++ b) =
        pyLower a ++ Char.toLower c :: (pyLower w' ++ pyLower b) := by
      unfold pyLower
      simp
    have hcl : pyIsSpace (Char.toLower c) = true := by
      rw [pyIsSpace_toLower]
      exact hw c (List.mem_cons_self c w')
    have hlw' : allSpace (pyLower w') :=
      allSpace_pyLower (fun x hx => hw x (List.mem_cons_of_mem c hx))
    rw [hmap, pySplit_append_space hcl (pyLower a) _, pySplit_leading_space hlw']

/-- C8: `_norm` is pure and idempotent — `norm (norm s) = norm s` for every
string — and case- and whitespace-insensitive: strings that agree after
lowercasing normalize identically, leading/trailing whitespace is ignored,
and replacing one internal whitespace run by another does not change the
result. -/
theorem C8_norm_idempotent_insensitive :
    (∀ s : Str, norm (norm s) = norm s) ∧
    (∀ s t : Str, pyLower s = pyLower t → norm s = norm t) ∧
    (∀ (u s : Str), allSpace u → norm (u ++ s) = norm s ∧ norm (s ++ u) = norm s) ∧
    (∀ (a b u v : Str), allSpace u → allSpace v → u ≠ [] → v ≠ [] →
      norm (a ++ u ++ b) = norm (a ++ v ++ b)) := by
  refine ⟨?_, ?_, ?_, ?_⟩
  · intro s
    conv_lhs => rw [norm_eq_join_split_lower, pyLower_norm]
    show joinSpace (pySplit (joinSpace (pySplit (pyLower (pyStrip s))))) = norm s
    rw [pySplit_joinSpace _ (pySplit_words_good _)]
    rfl
  · intro s t h
    rw [norm_eq_join_split_lower, norm_eq_join_split_lower, h]
  · intro u s hu
    have hlu := allSpace_pyLower hu
    constructor
    · rw [norm_eq_join_split_lower, norm_eq_join_split_lower s,
        show pyLower (u ++ s) = pyLower u ++ pyLower s from List.map_append _ _ _,
        pySplit_leading_space hlu]
    · rw [norm_eq_join_split_lower, norm_eq_join_split_lower s,
        show pyLower (s ++ u) = pyLower s ++ pyLower u from List.map_append _ _ _,
        pySplit_trailing_space hlu]
  · intro a b u v hu hv hune hvne
    rw [norm_eq_join_split_lower, norm_eq_join_split_lower,
      pySplit_lower_surround hu hune, pySplit_lower_surround hv hvne]

/-- Witness for C8 at concrete inputs: a one-space and a two-space internal
run yield the same normalization, and whitespace facts are discharged. -/
theorem C8_norm_idempotent_insensitive_witness :
    allSpace [' '] ∧ allSpace [' ', ' '] ∧ ([' '] : Str) ≠ [] ∧
    ([' ', ' '] : Str) ≠ [] ∧
    norm ("a".data ++ [' '] ++ "B".data) = norm ("a".data ++ [' ', ' '] ++ "B".data) :=
  ⟨by decide, by decide, by decide, by decide,
    C8_norm_idempotent_insensitive.2.2.2 "a".data "B".data [' '] [' ', ' ']
      (by decide) (by decide) (by decide) (by decide)⟩

/-! ### Python dicts as association lists

Python dicts keep insertion order; assignment to an existing key replaces
the value in place, assignment to a fresh key appends. Lookup finds the
(unique) binding. -/

/-- `d.get(k)` / `d[k]` on an association list. -/
def lookupA {α β : Type} [DecidableEq α] : List (α × β) → α → Option β
  | [], _ => Option.none
  | (k', v) :: rest, k => if k = k' then some v else lookupA rest k

/-- `d[k] = v`: replace in place if the key exists, else append. -/
def dinsertA {α β : Type} [DecidableEq α] : List (α × β) → α → β → List (α × β)
  | [], k, v => [(k, v)]
  | (k', v') :: rest, k, v =>
    if k = k' then (k', v) :: rest else (k', v') :: dinsertA rest k v

theorem lookupA_nil {α β : Type} [DecidableEq α] (k : α) :
    lookupA ([] : List (α × β)) k = Option.none := rfl

theorem lookupA_dinsertA_self {α β : Type} [DecidableEq α]
    (l : List (α × β)) (k : α) (v : β) :
    lookupA (dinsertA l k v) k = some v := by
  induction l with
  | nil => simp [dinsertA, lookupA]
  | cons p rest ih =>
    obtain ⟨k', v'⟩ := p
    by_cases h : k = k'
    · subst h
      simp [dinsertA, lookupA]
    · simp [dinsertA, lookupA, h, ih]

/-! ### Dynamically typed Python values -/

/-- A Python `float`, at the granularity the importer observes: finite
values, the two infinities, and NaN. -/
inductive PyFloat where
  | finite (q : ℚ)
  | inf
  | ninf
  | nan
deriving DecidableEq

/-- A scalar Python value (an element of a payload tuple or list). -/
inductive PyAtom where
  | astr (s : Str)
  | aint (n : Int)
  | afloat (f : PyFloat)
  | anone
deriving DecidableEq

/-- The Python values the importer's payloads carry. Containers hold
scalars, which is the only nesting the importer's code ever inspects
(exchange inputs are pairs of strings, category paths are lists of
scalars). -/
inductive PyVal where
  | vstr (s : Str)
  | vint (n : Int)
  | vfloat (f : PyFloat)
  | vtup (l : List PyAtom)
  | vlist (l : List PyAtom)
  | vnone
deriving DecidableEq

/-- IEEE `==` on Python floats: NaN compares unequal to everything,
including itself. -/
def pyFloatBeq : PyFloat → PyFloat → Bool
  | .finite a, .finite b => a == b
  | .inf, .inf => true
  | .ninf, .ninf => true
  | _, _ => false

/-- Python `str(x)` on a scalar, as used by `_norm(str(x))` on category
elements. Only the string case is ever distinguished by the claims; the
other renderings are fixed but arbitrary. -/
def pyStr : PyAtom → Str
  | .astr s => s
  | .aint n => (toString n).data
  | .afloat _ => "float".data
  | .anone => "None".data

/-! ### IndexBuilder: `_build_biosphere_exact_index` and the name index -/

/-- A reference biosphere flow as stored in the database: dynamically
typed fields, any of which may be absent (`flow.get(...)` returns `None`). -/
structure RefFlow where
  name : Option PyVal
  categories : Option PyVal
  unit : Option PyVal
  code : Option PyVal
deriving DecidableEq

/-- `_BioExactKey`: (norm name, norm categories tuple, norm unit). -/
abbrev BioKey := Str × List Str × Str

/-- Category normalization shared by the index builders: lists/tuples map
`_norm(str(x))` over elements, a nonempty string becomes a singleton,
anything else the empty tuple. -/
def catsNorm : Option PyVal → List Str
  | some (.vlist xs) => xs.map (fun v => norm (pyStr v))
  | some (.vtup xs) => xs.map (fun v => norm (pyStr v))
  | some (.vstr s) => if s.isEmpty then [] else [norm s]
  | _ => []

/-- The contribution of one flow to the exact index: `none` exactly when
`_build_biosphere_exact_index` skips the flow (name/unit/code not strings,
or code empty). -/
def flowKeyEntry (db : Str) (f : RefFlow) : Option (BioKey × (Str × Str)) :=
  match f.name, f.unit, f.code with
  | some (.vstr n), some (.vstr u), some (.vstr c) =>
    if c.isEmpty then Option.none
    else some ((norm n, catsNorm f.categories, norm u), (db, c))
  | _, _, _ => Option.none

/-- `_build_biosphere_exact_index(db_name)`. -/
def build_biosphere_exact_index (db : Str) (flows : List RefFlow) :
    List (BioKey × (Str × Str)) :=
  flows.foldl (fun idx f =>
    match flowKeyEntry db f with
    | some kv => dinsertA idx kv.1 kv.2
    | Option.none => idx) []

/-- A stage-C candidate: `(db, code, cats_tuple_norm, unit_norm)`. -/
structure Cand where
  db : Str
  code : Str
  cats : List Str
  unit : Str
deriving DecidableEq

/-- The name-only index built inside `_fill_missing_biosphere_inputs`:
norm name -> candidate list, in flow order. -/
def build_biosphere_name_index (db : Str) (flows : List RefFlow) :
    List (Str × List Cand) :=
  flows.foldl (fun idx f =>
    match f.name, f.unit, f.code with
    | some (.vstr n), some (.vstr u), some (.vstr c) =>
      if c.isEmpty then idx
      else dinsertA idx (norm n)
        (((lookupA idx (norm n)).getD []) ++ [⟨db, c, catsNorm f.categories, norm u⟩])
    | _, _, _ => idx) []

/-- An unresolved biosphere exchange with string name/unit and a category
list, the shape `_fill_missing_biosphere_inputs` resolves. -/
structure BioExcIn where
  name : Str
  categories : List Str
  unit : Str
deriving DecidableEq

/-- The key stage A looks up for an exchange. -/
def excExactKey (exc : BioExcIn) : BioKey :=
  (norm exc.name, exc.categories.map norm, norm exc.unit)

/-- Stage-A exact-match resolution: `exact_idx.get(...)`. -/
def resolve_exact (idx : List (BioKey × (Str × Str))) (exc : BioExcIn) :
    Option (Str × Str) :=
  lookupA idx (excExactKey exc)

/-! ### Order-invariance of the exact index under unique keys -/

theorem build_exact_eq_fold_entries (db : Str) (flows : List RefFlow) :
    ∀ acc, flows.foldl (fun idx f =>
        match flowKeyEntry db f with
        | some kv => dinsertA idx kv.1 kv.2
        | Option.none => idx) acc =
      (flows.filterMap (flowKeyEntry db)).foldl
        (fun idx kv => dinsertA idx kv.1 kv.2) acc := by
  induction flows with
  | nil => intro acc; rfl
  | cons f rest ih =>
    intro acc
    rw [List.foldl_cons, List.filterMap_cons]
    cases h : flowKeyEntry db f with
    | none => rw [ih]
    | some kv => rw [List.foldl_cons, ih]

theorem dinsertA_append_of_not_mem {α β : Type} [DecidableEq α]
    {l : List (α × β)} {k : α} (h : k ∉ l.map Prod.fst) (v : β) :
    dinsertA l k v = l ++ [(k, v)] := by
  induction l with
  | nil => rfl
  | cons p rest ih =>
    obtain ⟨k', v'⟩ := p
    simp only [List.map_cons, List.mem_cons] at h
    push_neg at h
    rw [dinsertA, if_neg h.1, ih h.2]
    rfl

theorem foldl_dinsertA_eq_append {α β : Type} [DecidableEq α] :
    ∀ (es acc : List (α × β)),
      ((acc.map Prod.fst) ++ (es.map Prod.fst)).Nodup →
      es.foldl (fun m kv => dinsertA m kv.1 kv.2) acc = acc ++ es := by
  intro es
  induction es with
  | nil => intro acc _; rw [List.foldl_nil, List.append_nil]
  | cons kv es' ih =>
    intro acc hn
    obtain ⟨k, v⟩ := kv
    have hk : k ∉ acc.map Prod.fst := by
      intro hmem
      exact (List.disjoint_of_nodup_append hn) hmem (by simp)
    rw [List.foldl_cons]
    rw [dinsertA_append_of_not_mem hk v]
    have hassoc : (acc.map Prod.fst) ++ ((k, v) :: es').map Prod.fst =
        ((acc ++ [(k, v)]).map Prod.fst) ++ es'.map Prod.fst := by
      simp
    rw [hassoc] at hn
    rw [ih (acc ++ [(k, v)]) hn, List.append_assoc]
    rfl

theorem lookupA_perm {α β : Type} [DecidableEq α] {l l' : List (α × β)}
    (h : l.Perm l') (hn : (l.map Prod.fst).Nodup) (k : α) :
    lookupA l k = lookupA l' k := by
  induction h with
  | nil => rfl
  | cons x h2 ih =>
    obtain ⟨k', v'⟩ := x
    simp only [lookupA]
    by_cases hk : k = k'
    · rw [if_pos hk, if_pos hk]
    · rw [if_neg hk, if_neg hk]
      exact ih ((List.nodup_cons.mp (by simpa using hn)).2)
  | swap x y l2 =>
    obtain ⟨kx, vx⟩ := x
    obtain ⟨ky, vy⟩ := y
    simp only [List.map_cons, List.nodup_cons, List.mem_cons] at hn
    simp only [lookupA]
    by_cases h1 : k = ky <;> by_cases h2 : k = kx
    · exact absurd (Or.inl (h1.symm.trans h2)) hn.1
    · simp [h1, h2]
      rw [if_neg (fun he => hn.1 (Or.inl he))]
    · simp [h1, h2]
      intro he
      exact absurd (Or.inl he.symm) hn.1
    · simp [h1, h2]
  | trans h1 h2 ih1 ih2 =>
    rw [ih1 hn, ih2 (((h1.map Prod.fst).nodup_iff).mp hn)]

theorem build_exact_of_nodup {db : Str} {flows : List RefFlow}
    (hn : ((flows.filterMap (flowKeyEntry db)).map Prod.fst).Nodup) :
    build_biosphere_exact_index db flows = flows.filterMap (flowKeyEntry db) := by
  unfold build_biosphere_exact_index
  rw [build_exact_eq_fold_entries]
  have h := foldl_dinsertA_eq_append (flows.filterMap (flowKeyEntry db)) []
    (by simpa using hn)
  simpa using h

/-- C7: if every indexed reference entity has a unique normalized
(name, categories, unit) triple, exact-match resolution is independent of
the iteration order used to build the exact index: permuting the flow
collection leaves every lookup unchanged. -/
theorem C7_exact_resolution_order_invariant (db : Str)
    (flows flows' : List RefFlow) (hperm : flows.Perm flows')
    (hn : ((flows.filterMap (flowKeyEntry db)).map Prod.fst).Nodup) :
    ∀ exc : BioExcIn,
      resolve_exact (build_biosphere_exact_index db flows) exc =
        resolve_exact (build_biosphere_exact_index db flows') exc := by
  intro exc
  have hpe : (flows.filterMap (flowKeyEntry db)).Perm
      (flows'.filterMap (flowKeyEntry db)) := hperm.filterMap _
  have hn' : ((flows'.filterMap (flowKeyEntry db)).map Prod.fst).Nodup :=
    ((hpe.map Prod.fst).nodup_iff).mp hn
  unfold resolve_exact
  rw [build_exact_of_nodup hn, build_exact_of_nodup hn']
  exact lookupA_perm hpe hn (excExactKey exc)

/-- Witness for C7: two distinct flows, indexed in either order, resolve a
concrete exchange identically. -/
theorem C7_exact_resolution_order_invariant_witness :
    ([⟨some (.vstr "Carbon dioxide".data), some (.vtup [.astr "air".data]),
        some (.vstr "kg".data), some (.vstr "abc".data)⟩,
      ⟨some (.vstr "Methane".data), some (.vtup [.astr "air".data]),
        some (.vstr "kg".data), some (.vstr "m1".data)⟩] : List RefFlow).Perm
      [⟨some (.vstr "Methane".data), some (.vtup [.astr "air".data]),
        some (.vstr "kg".data), some (.vstr "m1".data)⟩,
       ⟨some (.vstr "Carbon dioxide".data), some (.vtup [.astr "air".data]),
        some (.vstr "kg".data), some (.vstr "abc".data)⟩] ∧
    resolve_exact (build_biosphere_exact_index "biosphere3".data
      [⟨some (.vstr "Carbon dioxide".data), some (.vtup [.astr "air".data]),
        some (.vstr "kg".data), some (.vstr "abc".data)⟩,
       ⟨some (.vstr "Methane".data), some (.vtup [.astr "air".data]),
        some (.vstr "kg".data), some (.vstr "m1".data)⟩])
      ⟨"Carbon dioxide".data, ["air".data], "kg".data⟩ =
    resolve_exact (build_biosphere_exact_index "biosphere3".data
      [⟨some (.vstr "Methane".data), some (.vtup [.astr "air".data]),
        some (.vstr "kg".data), some (.vstr "m1".data)⟩,
       ⟨some (.vstr "Carbon dioxide".data), some (.vtup [.astr "air".data]),
        some (.vstr "kg".data), some (.vstr "abc".data)⟩])
      ⟨"Carbon dioxide".data, ["air".data], "kg".data⟩ :=
  ⟨List.Perm.swap _ _ _,
    C7_exact_resolution_order_invariant "biosphere3".data _ _
      (List.Perm.swap _ _ _) (by decide) _⟩

/-! ### C6: which entities the exact index skips -/

theorem flowKeyEntry_eq_some_of {db : Str} {f : RefFlow} {n u c : Str}
    (h1 : f.name = some (.vstr n)) (h2 : f.unit = some (.vstr u))
    (h3 : f.code = some (.vstr c)) (h4 : c ≠ []) :
    flowKeyEntry db f =
      some ((norm n, catsNorm f.categories, norm u), (db, c)) := by
  unfold flowKeyEntry
  rw [h1, h2, h3]
  show (if c.isEmpty = true then Option.none
    else some ((norm n, catsNorm f.categories, norm u), (db, c))) = _
  rw [if_neg (by simpa using h4)]

theorem flowKeyEntry_some {db : Str} {f : RefFlow} {kv}
    (h : flowKeyEntry db f = some kv) :
    ∃ n u c : Str, f.name = some (.vstr n) ∧ f.unit = some (.vstr u) ∧
      f.code = some (.vstr c) ∧ c ≠ [] := by
  unfold flowKeyEntry at h
  split at h
  · next n u c hn hu hc =>
    split at h
    · exact absurd h (by simp)
    · next hce =>
      exact ⟨n, u, c, hn, hu, hc, by simpa using hce⟩
  · exact absurd h (by simp)

/-- C6 counterexample: a reference flow whose `categories` field is absent
is still indexed (under the empty category tuple): an entity missing the
categories field contributes a key to the exact index, contradicting the
claim that categories is a required field whose absence causes a skip. -/
theorem C6_counterexample :
    lookupA (build_biosphere_exact_index "biosphere3".data
        [⟨some (.vstr "Methane".data), Option.none,
          some (.vstr "kg".data), some (.vstr "c1".data)⟩])
      ("methane".data, [], "kg".data) = some ("biosphere3".data, "c1".data) ∧
    RefFlow.categories ⟨some (.vstr "Methane".data), Option.none,
      some (.vstr "kg".data), some (.vstr "c1".data)⟩ = Option.none := by
  constructor
  · decide
  · rfl

/-- C6 (amended): the exact index skips exactly those entities whose name
or unit is not a string or whose identifier is not a nonempty string; a
skipped entity contributes nothing to the index. A missing or ill-typed
`categories` field does not cause a skip — it falls back to the empty
category tuple. -/
theorem C6_exact_index_skips (db : Str) (f : RefFlow) :
    (flowKeyEntry db f = Option.none ↔
      ¬ ∃ n u c : Str, f.name = some (.vstr n) ∧ f.unit = some (.vstr u) ∧
        f.code = some (.vstr c) ∧ c ≠ []) ∧
    (∀ l1 l2 : List RefFlow, flowKeyEntry db f = Option.none →
      build_biosphere_exact_index db (l1 ++ f :: l2) =
        build_biosphere_exact_index db (l1 ++ l2)) := by
  constructor
  · constructor
    · intro h hex
      obtain ⟨n, u, c, h1, h2, h3, h4⟩ := hex
      rw [flowKeyEntry_eq_some_of h1 h2 h3 h4] at h
      cases h
    · intro h
      cases hk : flowKeyEntry db f with
      | none => rfl
      | some kv => exact absurd (flowKeyEntry_some hk) h
  · intro l1 l2 h
    unfold build_biosphere_exact_index
    rw [List.foldl_append, List.foldl_append, List.foldl_cons, h]

/-- Witness for C6 (amended) at a concrete skipped entity (integer-typed
name): the index over a surrounding collection is unchanged. -/
theorem C6_exact_index_skips_witness :
    flowKeyEntry "biosphere3".data
      ⟨some (.vint 7), Option.none, some (.vstr "kg".data),
        some (.vstr "c9".data)⟩ = Option.none ∧
    build_biosphere_exact_index "biosphere3".data
      [⟨some (.vstr "Methane".data), Option.none, some (.vstr "kg".data),
         some (.vstr "c1".data)⟩,
       ⟨some (.vint 7), Option.none, some (.vstr "kg".data),
         some (.vstr "c9".data)⟩] =
    build_biosphere_exact_index "biosphere3".data
      [⟨some (.vstr "Methane".data), Option.none, some (.vstr "kg".data),
         some (.vstr "c1".data)⟩] :=
  ⟨rfl,
    (C6_exact_index_skips "biosphere3".data
      ⟨some (.vint 7), Option.none, some (.vstr "kg".data),
        some (.vstr "c9".data)⟩).2
      [⟨some (.vstr "Methane".data), Option.none, some (.vstr "kg".data),
         some (.vstr "c1".data)⟩] [] rfl⟩

/-! ### Resolver stage C: `choose_best_candidate` -/

/-- Python truthiness of the optional `top_compartment` argument: `None`
and the empty string are falsy. -/
def truthy : Option Str → Bool
  | Option.none => false
  | some s => !s.isEmpty

/-- `[c for c in cands if c[3] == unit_n] or cands`: keep unit-matching
candidates, falling back to the full set when none match. -/
def unitFilter (cands : List Cand) (unit_n : Str) : List Cand :=
  let f := cands.filter (fun c => c.unit == unit_n)
  if f.isEmpty then cands else f

/-- `[c for c in c_unit if len(c[2]) >= 1 and c[2][0] == tc]`. -/
def tcFilter (c_unit : List Cand) (tc : Str) : List Cand :=
  c_unit.filter (fun c => decide (1 ≤ c.cats.length) && (c.cats.headD [] == tc))

/-- `choose_best_candidate(cands, unit_n, top_compartment)`: deterministic
selection — unit filter with fallback, then optional top-compartment
disambiguation, never guessing among multiple candidates. -/
def choose_best_candidate (cands : List Cand) (unit_n : Str)
    (top_compartment : Option Str) : Option (Str × Str) :=
  if cands.isEmpty then Option.none
  else
    let c_unit := unitFilter cands unit_n
    if truthy top_compartment then
      let tc := norm (top_compartment.getD [])
      let c_tc := tcFilter c_unit tc
      if c_tc.length = 1 then c_tc.head?.map (fun c => (c.db, c.code))
      else if 1 < c_tc.length then Option.none
      else if c_unit.length = 1 then c_unit.head?.map (fun c => (c.db, c.code))
      else Option.none
    else if c_unit.length = 1 then c_unit.head?.map (fun c => (c.db, c.code))
    else Option.none

theorem unitFilter_nil (unit_n : Str) : unitFilter [] unit_n = [] := rfl

/-- C1: stage C (name-only) resolution is conservative. The candidate set
is first filtered by normalized unit, falling back to the full set when no
unit matches; with a truthy top-level category hint, a unique
first-category match is selected and several matches select nothing; with
no hint (or an empty category filter) selection happens only when the
unit-filtered set is a singleton. In particular two candidates sharing the
unit, with no category hint, are never resolved. -/
theorem C1_stage_c_conservative (cands : List Cand) (unit_n : Str)
    (top : Option Str) :
    ((∃ c ∈ cands, c.unit = unit_n) →
      unitFilter cands unit_n = cands.filter (fun c => c.unit == unit_n)) ∧
    ((∀ c ∈ cands, c.unit ≠ unit_n) → unitFilter cands unit_n = cands) ∧
    (∀ tc0 : Str, top = some tc0 → tc0 ≠ [] →
      ((tcFilter (unitFilter cands unit_n) (norm tc0)).length = 1 →
        choose_best_candidate cands unit_n top =
          (tcFilter (unitFilter cands unit_n) (norm tc0)).head?.map
            (fun c => (c.db, c.code))) ∧
      (1 < (tcFilter (unitFilter cands unit_n) (norm tc0)).length →
        choose_best_candidate cands unit_n top = Option.none) ∧
      (tcFilter (unitFilter cands unit_n) (norm tc0) = [] →
        choose_best_candidate cands unit_n top =
          (if (unitFilter cands unit_n).length = 1 then
            (unitFilter cands unit_n).head?.map (fun c => (c.db, c.code))
          else Option.none))) ∧
    (truthy top = false →
      choose_best_candidate cands unit_n top =
        (if (unitFilter cands unit_n).length = 1 then
          (unitFilter cands unit_n).head?.map (fun c => (c.db, c.code))
        else Option.none)) ∧
    (∀ c1 c2 : Cand, c1.unit = unit_n → c2.unit = unit_n →
      choose_best_candidate [c1, c2] unit_n Option.none = Option.none) := by
  refine ⟨?_, ?_, ?_, ?_, ?_⟩
  · rintro ⟨c, hc, hu⟩
    have hmem : c ∈ cands.filter (fun x => x.unit == unit_n) :=
      List.mem_filter.mpr ⟨hc, by simp [hu]⟩
    unfold unitFilter
    rw [if_neg (by
      rw [Bool.not_eq_true, List.isEmpty_eq_false]
      exact List.ne_nil_of_mem hmem)]
  · intro h
    unfold unitFilter
    rw [if_pos (by
      rw [List.isEmpty_eq_true, List.filter_eq_nil_iff]
      intro a ha
      simp [h a ha])]
  · intro tc0 htop hne
    subst htop
    have htr : truthy (some tc0) = true := by
      cases tc0 with
      | nil => exact absurd rfl hne
      | cons a t => rfl
    by_cases hce : cands = []
    · subst hce
      refine ⟨?_, ?_, ?_⟩
      · intro h
        rw [unitFilter_nil] at h
        cases h
      · intro h
        rw [unitFilter_nil] at h
        cases h
      · intro _
        rw [unitFilter_nil]
        rfl
    · have hne2 : cands.isEmpty = false := List.isEmpty_eq_false.mpr hce
      refine ⟨?_, ?_, ?_⟩
      · intro h
        unfold choose_best_candidate
        simp only [hne2, Bool.false_eq_true, if_false, htr, if_true,
          Option.getD_some]
        rw [if_pos h]
      · intro h
        unfold choose_best_candidate
        simp only [hne2, Bool.false_eq_true, if_false, htr, if_true,
          Option.getD_some]
        rw [if_neg (by omega), if_pos h]
      · intro h
        unfold choose_best_candidate
        simp only [hne2, Bool.false_eq_true, if_false, htr, if_true,
          Option.getD_some]
        rw [if_neg (by rw [h]; simp), if_neg (by rw [h]; simp)]
  · intro htr
    by_cases hce : cands = []
    · subst hce
      rw [unitFilter_nil]
      rfl
    · have hne2 : cands.isEmpty = false := List.isEmpty_eq_false.mpr hce
      unfold choose_best_candidate
      simp only [hne2, Bool.false_eq_true, if_false, htr]
  · intro c1 c2 h1 h2
    unfold choose_best_candidate truthy
    have hfil : [c1, c2].filter (fun x => x.unit == unit_n) = [c1, c2] := by
      simp [List.filter, h1, h2]
    unfold unitFilter
    rw [hfil]
    simp

/-- Witness for C1: two same-unit candidates in different compartments,
no category hint — stage C selects nothing. -/
theorem C1_stage_c_conservative_witness :
    Cand.unit ⟨"biosphere3".data, "a1".data, ["air".data], "kg".data⟩ = "kg".data ∧
    Cand.unit ⟨"biosphere3".data, "a2".data, ["water".data], "kg".data⟩ = "kg".data ∧
    choose_best_candidate
      [⟨"biosphere3".data, "a1".data, ["air".data], "kg".data⟩,
       ⟨"biosphere3".data, "a2".data, ["water".data], "kg".data⟩]
      "kg".data Option.none = Option.none :=
  ⟨rfl, rfl,
    (C1_stage_c_conservative
      [⟨"biosphere3".data, "a1".data, ["air".data], "kg".data⟩,
       ⟨"biosphere3".data, "a2".data, ["water".data], "kg".data⟩]
      "kg".data Option.none).2.2.2.2
      ⟨"biosphere3".data, "a1".data, ["air".data], "kg".data⟩
      ⟨"biosphere3".data, "a2".data, ["water".data], "kg".data⟩ rfl rfl⟩

/-! ### SyntheticFlowFactory: the custom biosphere store -/

/-- A custom biosphere flow record as written by
`_get_or_create_custom_biosphere_flow` (`"type": "emission"`). -/
structure Flow where
  name : Str
  categories : List Str
  unit : Str
  flowType : Str
  code : Str
deriving DecidableEq

/-- The contents of one database: a dict keyed by `(db_name, code)`. -/
abbrev DBData := List ((Str × Str) × Flow)

/-- The Brightway project store `bd.databases`: database name to
contents. -/
abbrev Store := List (Str × DBData)

/-- `_ensure_custom_biosphere_db`: create an empty container if missing. -/
def ensure_custom_biosphere_db (db_name : Str) (st : Store) : Store :=
  if (lookupA st db_name).isSome then st else dinsertA st db_name []

/-- Tail of the Python `repr` of a string tuple with two or more
elements. -/
def pyReprTupleTail : List Str → Str
  | [] => "')".data
  | s :: rest => "', '".data ++ s ++ pyReprTupleTail rest

/-- Python `repr` of a tuple of strings, as interpolated by the f-string
in `_custom_flow_code`; quote escaping inside names is not modelled. -/
def pyReprStrTuple : List Str → Str
  | [] => "()".data
  | [s] => "('".data ++ s ++ "',)".data
  | s :: rest => "('".data ++ s ++ pyReprTupleTail rest

/-- The fingerprint input `f"{name}|{categories}|{unit}"`. -/
def encodeFlowKey (name : Str) (categories : List Str) (unit : Str) : Str :=
  name ++ "|".data ++ pyReprStrTuple categories ++ "|".data ++ unit

/-- `_custom_flow_code`, with `hashlib.md5(...).hexdigest()` abstracted as
a digest-function parameter: the library digest is deterministic, which is
all the importer relies on, and every theorem below holds for an arbitrary
digest. -/
def custom_flow_code (hash : Str → Str) (name : Str) (categories : List Str)
    (unit : Str) : Str :=
  hash (encodeFlowKey name categories unit)

/-- `_get_or_create_custom_biosphere_flow`: return `(db_name, code)` for
the flow, creating and persisting it if missing; the updated store is
returned alongside. -/
def get_or_create_custom_biosphere_flow (hash : Str → Str) (db_name : Str)
    (flow_name : Str) (categories : List Str) (unit : Str) (st : Store) :
    (Str × Str) × Store :=
  let st1 := ensure_custom_biosphere_db db_name st
  let code := custom_flow_code hash flow_name categories unit
  let key := (db_name, code)
  let existing := (lookupA st1 db_name).getD []
  if (lookupA existing key).isSome then (key, st1)
  else
    let existing2 := dinsertA existing key
      ⟨flow_name, categories, unit, "emission".data, code⟩
    (key, dinsertA st1 db_name existing2)

theorem lookupA_ensure_isSome (db_name : Str) (st : Store) :
    (lookupA (ensure_custom_biosphere_db db_name st) db_name).isSome = true := by
  unfold ensure_custom_biosphere_db
  by_cases h : (lookupA st db_name).isSome = true
  · rw [if_pos h]
    exact h
  · rw [if_neg h, lookupA_dinsertA_self]
    rfl

theorem ensure_of_isSome {db_name : Str} {st : Store}
    (h : (lookupA st db_name).isSome = true) :
    ensure_custom_biosphere_db db_name st = st := by
  unfold ensure_custom_biosphere_db
  rw [if_pos h]

theorem ensure_idem (db_name : Str) (st : Store) :
    ensure_custom_biosphere_db db_name (ensure_custom_biosphere_db db_name st) =
      ensure_custom_biosphere_db db_name st :=
  ensure_of_isSome (lookupA_ensure_isSome db_name st)

theorem goc_hit {hash : Str → Str} {db_name flow_name : Str}
    {categories : List Str} {unit : Str} {st : Store}
    (h : (lookupA ((lookupA (ensure_custom_biosphere_db db_name st) db_name).getD [])
        (db_name, custom_flow_code hash flow_name categories unit)).isSome = true) :
    get_or_create_custom_biosphere_flow hash db_name flow_name categories unit st =
      ((db_name, custom_flow_code hash flow_name categories unit),
        ensure_custom_biosphere_db db_name st) := by
  unfold get_or_create_custom_biosphere_flow
  rw [if_pos h]

theorem goc_miss {hash : Str → Str} {db_name flow_name : Str}
    {categories : List Str} {unit : Str} {st : Store}
    (h : ¬ (lookupA ((lookupA (ensure_custom_biosphere_db db_name st) db_name).getD [])
        (db_name, custom_flow_code hash flow_name categories unit)).isSome = true) :
    get_or_create_custom_biosphere_flow hash db_name flow_name categories unit st =
      ((db_name, custom_flow_code hash flow_name categories unit),
        dinsertA (ensure_custom_biosphere_db db_name st) db_name
          (dinsertA ((lookupA (ensure_custom_biosphere_db db_name st) db_name).getD [])
            (db_name, custom_flow_code hash flow_name categories unit)
            ⟨flow_name, categories, unit, "emission".data,
              custom_flow_code hash flow_name categories unit⟩)) := by
  unfold get_or_create_custom_biosphere_flow
  rw [if_neg h]

/-- C3: synthetic-flow identifiers are stable and creation is idempotent:
for any digest function and any (name, categories, unit), two successive
calls of `_get_or_create_custom_biosphere_flow` return the identical
`(db_name, code)` pair — the code being the fingerprint of the triple —
and the second call leaves the store exactly as the first left it, so no
second entity is created. -/
theorem C3_synthetic_flow_idempotent (hash : Str → Str)
    (db_name flow_name : Str) (categories : List Str) (unit : Str)
    (st : Store) :
    (get_or_create_custom_biosphere_flow hash db_name flow_name categories unit
        (get_or_create_custom_biosphere_flow hash db_name flow_name categories
          unit st).2).1 =
      (get_or_create_custom_biosphere_flow hash db_name flow_name categories
        unit st).1 ∧
    (get_or_create_custom_biosphere_flow hash db_name flow_name categories unit
        (get_or_create_custom_biosphere_flow hash db_name flow_name categories
          unit st).2).2 =
      (get_or_create_custom_biosphere_flow hash db_name flow_name categories
        unit st).2 ∧
    (get_or_create_custom_biosphere_flow hash db_name flow_name categories
        unit st).1 =
      (db_name, custom_flow_code hash flow_name categories unit) := by
  by_cases hA : (lookupA ((lookupA (ensure_custom_biosphere_db db_name st)
      db_name).getD [])
      (db_name, custom_flow_code hash flow_name categories unit)).isSome = true
  · rw [goc_hit hA]
    have h2 : (lookupA ((lookupA (ensure_custom_biosphere_db db_name
        (ensure_custom_biosphere_db db_name st)) db_name).getD [])
        (db_name, custom_flow_code hash flow_name categories unit)).isSome
          = true := by
      rw [ensure_idem]
      exact hA
    rw [goc_hit h2, ensure_idem]
    exact ⟨rfl, rfl, rfl⟩
  · rw [goc_miss hA]
    have hsome : (lookupA (dinsertA (ensure_custom_biosphere_db db_name st)
        db_name
        (dinsertA ((lookupA (ensure_custom_biosphere_db db_name st)
            db_name).getD [])
          (db_name, custom_flow_code hash flow_name categories unit)
          ⟨flow_name, categories, unit, "emission".data,
            custom_flow_code hash flow_name categories unit⟩))
        db_name).isSome = true := by
      rw [lookupA_dinsertA_self]
      rfl
    have h2 : (lookupA ((lookupA (ensure_custom_biosphere_db db_name
        (dinsertA (ensure_custom_biosphere_db db_name st) db_name
          (dinsertA ((lookupA (ensure_custom_biosphere_db db_name st)
              db_name).getD [])
            (db_name, custom_flow_code hash flow_name categories unit)
            ⟨flow_name, categories, unit, "emission".data,
              custom_flow_code hash flow_name categories unit⟩)))
        db_name).getD [])
        (db_name, custom_flow_code hash flow_name categories unit)).isSome
          = true := by
      rw [ensure_of_isSome hsome, lookupA_dinsertA_self]
      simp only [Option.getD_some]
      rw [lookupA_dinsertA_self]
      rfl
    rw [goc_hit h2, ensure_of_isSome hsome]
    exact ⟨rfl, rfl, rfl⟩

/-! ### Resolver: staged biosphere resolution -/

/-- Outcome of resolving one unresolved biosphere exchange: the stage that
resolved it with the chosen reference; stage D also returns the updated
store; stage E is the fatal `ValueError`. -/
inductive BioOutcome where
  | stageA (inp : Str × Str)
  | stageB (inp : Str × Str)
  | stageC (inp : Str × Str)
  | stageD (inp : Str × Str) (st : Store)
  | unresolvedError
deriving DecidableEq

/-- `_BIO_NAME_ALIASES` — empty in the source. -/
def BIO_NAME_ALIASES : List (Str × List Str) := []

/-- De-duplication by `(db, code)` keeping first occurrences, as in
`candidates_for_name`. -/
def dedupCandsAux (seen : List (Str × Str)) : List Cand → List Cand
  | [] => []
  | c :: rest =>
    if seen.contains (c.db, c.code) then dedupCandsAux seen rest
    else c :: dedupCandsAux ((c.db, c.code) :: seen) rest

/-- `candidates_for_name`: all candidates for a name across compartments,
alias-expanded and de-duplicated by `(db, code)`. -/
def candidates_for_name (name_idx : List (Str × List Cand)) (name : Str) :
    List Cand :=
  dedupCandsAux []
    (((lookupA name_idx (norm name)).getD []) ++
      (((lookupA BIO_NAME_ALIASES (norm name)).getD []).flatMap
        (fun a => (lookupA name_idx (norm a)).getD [])))

/-- The per-exchange staged resolution of
`_fill_missing_biosphere_inputs`, for a biosphere exchange carrying a
string name, a list of categories and a string unit, and no `input` key. -/
def resolveBioExc (exact_idx : List (BioKey × (Str × Str)))
    (name_idx : List (Str × List Cand)) (name_map : List (Str × Str))
    (allowCreate : Bool) (hash : Str → Str) (customDb : Str) (st : Store)
    (exc : BioExcIn) : BioOutcome :=
  let cats_t := exc.categories.map norm
  let top_comp : Option Str := cats_t.head?
  let unit_n := norm exc.unit
  let name_n := norm exc.name
  match lookupA exact_idx (name_n, cats_t, unit_n) with
  | some hit => .stageA hit
  | Option.none =>
    let mapped_name := (lookupA name_map name_n).getD exc.name
    let mapped_n := norm mapped_name
    match lookupA exact_idx (mapped_n, cats_t, unit_n) with
    | some hit => .stageB hit
    | Option.none =>
      let cands := candidates_for_name name_idx mapped_name
      match choose_best_candidate cands unit_n top_comp with
      | some chosen => .stageC chosen
      | Option.none =>
        if allowCreate then
          let r := get_or_create_custom_biosphere_flow hash customDb exc.name
            cats_t unit_n st
          .stageD r.1 r.2
        else .unresolvedError

/-- Observation helper: the flow record persisted by a stage-D outcome. -/
def storedFlow : BioOutcome → Option Flow
  | .stageD k st => lookupA ((lookupA st k.1).getD []) k
  | _ => Option.none

/-- C5 counterexample: for an exchange with original categories
`("Air",)` and unit `"KG"`, the synthetic flow is created with the
normalized attributes `("air",)` and `"kg"` — not the exchange's original
categories and unit — refuting the claim that the factory receives the
original (name, categories, unit) unaltered. -/
theorem C5_counterexample :
    (storedFlow (resolveBioExc [] [] [] true (fun s => s)
        "biosphere_custom".data []
        ⟨"X".data, ["Air".data], "KG".data⟩)).map Flow.categories =
      some ["air".data] ∧
    (storedFlow (resolveBioExc [] [] [] true (fun s => s)
        "biosphere_custom".data []
        ⟨"X".data, ["Air".data], "KG".data⟩)).map Flow.unit =
      some "kg".data ∧
    some ["air".data] ≠ some (["Air".data] : List Str) ∧
    some "kg".data ≠ some "KG".data := by
  refine ⟨by decide, by decide, by decide, by decide⟩

/-- C5 (amended): when stages A–C fail and synthetic fallback is enabled,
the resolver invokes the factory with the exchange's original raw name —
not the override-substituted name — but with the normalized categories
tuple and normalized unit (not the original attributes), and resolves the
exchange to the identifier the factory returns. -/
theorem C5_stage_d_arguments (exact_idx : List (BioKey × (Str × Str)))
    (name_idx : List (Str × List Cand)) (name_map : List (Str × Str))
    (hash : Str → Str) (customDb : Str) (st : Store) (exc : BioExcIn)
    (hA : lookupA exact_idx
      (norm exc.name, exc.categories.map norm, norm exc.unit) = Option.none)
    (hB : lookupA exact_idx
      (norm ((lookupA name_map (norm exc.name)).getD exc.name),
        exc.categories.map norm, norm exc.unit) = Option.none)
    (hC : choose_best_candidate
      (candidates_for_name name_idx
        ((lookupA name_map (norm exc.name)).getD exc.name))
      (norm exc.unit) (exc.categories.map norm).head? = Option.none) :
    resolveBioExc exact_idx name_idx name_map true hash customDb st exc =
      .stageD
        (get_or_create_custom_biosphere_flow hash customDb exc.name
          (exc.categories.map norm) (norm exc.unit) st).1
        (get_or_create_custom_biosphere_flow hash customDb exc.name
          (exc.categories.map norm) (norm exc.unit) st).2 := by
  unfold resolveBioExc
  simp only [hA, hB, hC, if_true]

/-- Witness for C5 (amended) at a concrete failing exchange over empty
indices. -/
theorem C5_stage_d_arguments_witness :
    lookupA ([] : List (BioKey × (Str × Str)))
      (norm "X".data, ["Air".data].map norm, norm "KG".data) = Option.none ∧
    choose_best_candidate (candidates_for_name [] "X".data) (norm "KG".data)
      (["Air".data].map norm).head? = Option.none ∧
    resolveBioExc [] [] [] true (fun s => s) "biosphere_custom".data []
        ⟨"X".data, ["Air".data], "KG".data⟩ =
      .stageD
        (get_or_create_custom_biosphere_flow (fun s => s)
          "biosphere_custom".data "X".data (["Air".data].map norm)
          (norm "KG".data) []).1
        (get_or_create_custom_biosphere_flow (fun s => s)
          "biosphere_custom".data "X".data (["Air".data].map norm)
          (norm "KG".data) []).2 :=
  ⟨rfl, by decide,
    C5_stage_d_arguments [] [] [] (fun s => s) "biosphere_custom".data []
      ⟨"X".data, ["Air".data], "KG".data⟩ rfl rfl (by decide)⟩

/-! ### Validator: `_is_number` and `_validate_importer_payload` -/

/-- An exchange dict as seen by the validator: the three checked keys
(`type`, `amount`, `input`), each possibly absent. -/
structure ExcD where
  etype : Option PyVal
  amount : Option PyVal
  input : Option PyVal
deriving DecidableEq

/-- An element of an activity's exchange list: a dict or something else. -/
inductive ExcItem where
  | dict (e : ExcD)
  | nondict
deriving DecidableEq

/-- An activity (dataset): `database` and `code` as fetched by `.get`,
plus the exchange list. -/
structure ActD where
  database : Option PyVal
  code : Option PyVal
  exchanges : List ExcItem
deriving DecidableEq

/-- The `ValueError`s `_validate_importer_payload` raises, carrying the
data the corresponding message names. -/
inductive ValErr where
  | nonDictExchange
  | missingKeys
  | invalidType
  | nonNumericAmount
  | invalidInputShape
  | productionSelfRef (db code : Str) (inp : List PyAtom)
deriving DecidableEq

/-- `_is_number(x)`: `isinstance(x, (int, float)) and not (x != x)`; the
only value with `x != x` is NaN. -/
def is_number : PyVal → Bool
  | .vint _ => true
  | .vfloat f => pyFloatBeq f f
  | _ => false

/-- `exc["type"] in {"production", "technosphere", "biosphere"}`. -/
def isValidExcType : PyVal → Bool
  | .vstr s => s == "production".data || s == "technosphere".data ||
      s == "biosphere".data
  | _ => false

/-- The reference shape check: a 2-tuple of nonempty strings. -/
def validInputFormat : PyVal → Bool
  | .vtup l => l.length == 2 && l.all (fun v => match v with
      | .astr s => !s.isEmpty
      | _ => false)
  | _ => false

/-- Python `inp == (adb, acode)` for a shape-validated input tuple. -/
def inpEqKey (l : List PyAtom) (db cd : Str) : Bool :=
  match l with
  | [.astr a, .astr b] => a == db && b == cd
  | _ => false

/-- Validation of one entry of an activity's exchange list against the
owning activity's `(database, code)`. -/
def validateExc (adb acode : Option PyVal) : ExcItem → Except ValErr Unit
  | .nondict => .error .nonDictExchange
  | .dict e =>
    match e.etype, e.amount, e.input with
    | some t, some a, some inp =>
      if !isValidExcType t then .error .invalidType
      else if !is_number a then .error .nonNumericAmount
      else if !validInputFormat inp then .error .invalidInputShape
      else
        match t, inp with
        | .vstr ts, .vtup l =>
          if ts == "production".data then
            match adb, acode with
            | some (.vstr db), some (.vstr cd) =>
              if !db.isEmpty && !cd.isEmpty then
                if !inpEqKey l db cd then
                  .error (.productionSelfRef db cd l)
                else .ok ()
              else .ok ()
            | _, _ => .ok ()
          else .ok ()
        | _, _ => .ok ()
    | _, _, _ => .error .missingKeys

/-- Fail-fast validation of an exchange list. -/
def validateExcs (adb acode : Option PyVal) : List ExcItem → Except ValErr Unit
  | [] => .ok ()
  | x :: xs =>
    match validateExc adb acode x with
    | .error e => .error e
    | .ok _ => validateExcs adb acode xs

/-- Validation of one activity. -/
def validateAct (a : ActD) : Except ValErr Unit :=
  validateExcs a.database a.code a.exchanges

/-- `_validate_importer_payload` over the batch. -/
def validate_importer_payload : List ActD → Except ValErr Unit
  | [] => .ok ()
  | a :: rest =>
    match validateAct a with
    | .error e => .error e
    | .ok _ => validate_importer_payload rest

/-- The tail of `_process_excel`: `_validate_importer_payload(importer)`
runs strictly before `importer.write_database()`, so the batch is
committed only when validation succeeds. -/
def process_commit (batch : List ActD) : Except ValErr (List ActD) :=
  match validate_importer_payload batch with
  | .error e => .error e
  | .ok _ => .ok batch

/-! ### Validator lemmas -/

theorem validateExc_production_mismatch {db cd pa pb : Str} {amt : PyVal}
    (hdb : db ≠ []) (hcd : cd ≠ []) (hpa : pa ≠ []) (hpb : pb ≠ [])
    (hnum : is_number amt = true) (hne : ¬ (pa = db ∧ pb = cd)) :
    validateExc (some (.vstr db)) (some (.vstr cd))
      (.dict ⟨some (.vstr "production".data), some amt,
        some (.vtup [.astr pa, .astr pb])⟩) =
      .error (.productionSelfRef db cd [.astr pa, .astr pb]) := by
  unfold validateExc
  have hvt : (!isValidExcType (.vstr "production".data)) = false := by decide
  have hnum' : (!is_number amt) = false := by rw [hnum]; rfl
  have hvf : (!validInputFormat (.vtup [.astr pa, .astr pb])) = false := by
    have h1 : pa.isEmpty = false := List.isEmpty_eq_false.mpr hpa
    have h2 : pb.isEmpty = false := List.isEmpty_eq_false.mpr hpb
    simp [validInputFormat, h1, h2]
  have hid : (!db.isEmpty && !cd.isEmpty) = true := by
    have h1 : db.isEmpty = false := List.isEmpty_eq_false.mpr hdb
    have h2 : cd.isEmpty = false := List.isEmpty_eq_false.mpr hcd
    rw [h1, h2]
    rfl
  have hik : (!inpEqKey [.astr pa, .astr pb] db cd) = true := by
    show (!(pa == db && pb == cd)) = true
    by_cases h1 : pa = db
    · subst h1
      have h2 : (pb == cd) = false := by
        rw [beq_eq_false_iff_ne]
        exact fun h2 => hne ⟨rfl, h2⟩
      rw [h2, Bool.and_false]
      rfl
    · have h3 : (pa == db) = false := by
        rw [beq_eq_false_iff_ne]
        exact h1
      rw [h3, Bool.false_and]
      rfl
  simp only [hvt, hnum', hvf, Bool.false_eq_true, if_false, hid, if_true, hik]
  simp

theorem validateExc_production_not_ok {db cd pa pb : Str} {e : ExcD}
    (hdb : db ≠ []) (hcd : cd ≠ [])
    (ht : e.etype = some (.vstr "production".data))
    (hi : e.input = some (.vtup [.astr pa, .astr pb]))
    (hpa : pa ≠ []) (hpb : pb ≠ []) (hne : ¬ (pa = db ∧ pb = cd)) :
    ∀ u : Unit,
      validateExc (some (.vstr db)) (some (.vstr cd)) (.dict e) ≠ .ok u := by
  intro u
  obtain ⟨et, ea, ei⟩ := e
  simp only at ht hi
  subst ht hi
  cases ea with
  | none =>
    intro h
    simp only [validateExc] at h
    exact Except.noConfusion h
  | some amt =>
    by_cases hnum : is_number amt = true
    · rw [validateExc_production_mismatch hdb hcd hpa hpb hnum hne]
      intro h
      cases h
    · rw [Bool.not_eq_true] at hnum
      intro h
      simp only [validateExc, hnum] at h
      have hvt : (!isValidExcType (.vstr "production".data)) = false := by decide
      rw [hvt] at h
      simp at h

theorem validateExcs_error_of_mem {adb acode : Option PyVal}
    {xs : List ExcItem} {x : ExcItem} (hx : x ∈ xs)
    (hex : ∀ u : Unit, validateExc adb acode x ≠ .ok u) :
    ∃ err, validateExcs adb acode xs = .error err := by
  induction xs with
  | nil => cases hx
  | cons y ys ih =>
    cases hy : validateExc adb acode y with
    | error e => exact ⟨e, by simp only [validateExcs, hy]⟩
    | ok u =>
      rcases List.mem_cons.mp hx with rfl | hx'
      · exact absurd hy (hex u)
      · obtain ⟨err, herr⟩ := ih hx'
        exact ⟨err, by simp only [validateExcs, hy]; exact herr⟩

theorem payload_error_of_mem {batch : List ActD} {a : ActD} (ha : a ∈ batch)
    (hae : ∀ u : Unit, validateAct a ≠ .ok u) :
    ∃ err, validate_importer_payload batch = .error err := by
  induction batch with
  | nil => cases ha
  | cons b bs ih =>
    cases hb : validateAct b with
    | error e => exact ⟨e, by simp only [validate_importer_payload, hb]⟩
    | ok u =>
      rcases List.mem_cons.mp ha with rfl | ha'
      · exact absurd hb (hae u)
      · obtain ⟨err, herr⟩ := ih ha'
        exact ⟨err, by simp only [validate_importer_payload, hb]; exact herr⟩

theorem process_commit_error {batch : List ActD}
    (h : ∃ err, validate_importer_payload batch = .error err) :
    ∃ err, process_commit batch = .error err := by
  obtain ⟨err, herr⟩ := h
  exact ⟨err, by simp only [process_commit, herr]⟩

/-- C2: a dataset with a well-formed (database, code) identity containing
a production exchange whose input tuple differs from that identity makes
validation of the whole batch fail — `_process_excel` therefore never
reaches `write_database` — and validating that exchange (with a numeric
amount) yields precisely the production-self-reference error naming the
dataset identity and the offending reference. -/
theorem C2_production_self_reference_rejected (batch : List ActD) (a : ActD)
    (db cd pa pb : Str) (e : ExcD)
    (ha : a ∈ batch)
    (hdbf : a.database = some (.vstr db)) (hdb : db ≠ [])
    (hcdf : a.code = some (.vstr cd)) (hcd : cd ≠ [])
    (he : ExcItem.dict e ∈ a.exchanges)
    (ht : e.etype = some (.vstr "production".data))
    (hi : e.input = some (.vtup [.astr pa, .astr pb]))
    (hpa : pa ≠ []) (hpb : pb ≠ [])
    (hne : ¬ (pa = db ∧ pb = cd)) :
    (∃ err, validate_importer_payload batch = .error err) ∧
    (∃ err, process_commit batch = .error err) ∧
    (∀ amt : PyVal, e.amount = some amt → is_number amt = true →
      validateExc (some (.vstr db)) (some (.vstr cd)) (.dict e) =
        .error (.productionSelfRef db cd [.astr pa, .astr pb])) := by
  have hex : ∀ u : Unit, validateExc a.database a.code (.dict e) ≠ .ok u := by
    rw [hdbf, hcdf]
    exact validateExc_production_not_ok hdb hcd ht hi hpa hpb hne
  have hae : ∀ u : Unit, validateAct a ≠ .ok u := by
    intro u h
    obtain ⟨err, herr⟩ := validateExcs_error_of_mem he hex
    unfold validateAct at h
    rw [herr] at h
    cases h
  have hperr := payload_error_of_mem ha hae
  refine ⟨hperr, process_commit_error hperr, ?_⟩
  intro amt hamt hnum
  obtain ⟨et, ea, ei⟩ := e
  simp only at ht hi hamt
  subst ht hi hamt
  exact validateExc_production_mismatch hdb hcd hpa hpb hnum hne

/-- Witness for C2: the spec's scenario 4 — dataset ("m1","p1") with a
production exchange referencing ("m1","p2"). -/
theorem C2_production_self_reference_rejected_witness :
    (¬ ("m1".data = "m1".data ∧ "p2".data = "p1".data)) ∧
    (∃ err, validate_importer_payload
      [⟨some (.vstr "m1".data), some (.vstr "p1".data),
        [.dict ⟨some (.vstr "production".data), some (.vint 1),
          some (.vtup [.astr "m1".data, .astr "p2".data])⟩]⟩] =
        .error err) ∧
    (∃ err, process_commit
      [⟨some (.vstr "m1".data), some (.vstr "p1".data),
        [.dict ⟨some (.vstr "production".data), some (.vint 1),
          some (.vtup [.astr "m1".data, .astr "p2".data])⟩]⟩] =
        .error err) := by
  have h := C2_production_self_reference_rejected
    [⟨some (.vstr "m1".data), some (.vstr "p1".data),
      [.dict ⟨some (.vstr "production".data), some (.vint 1),
        some (.vtup [.astr "m1".data, .astr "p2".data])⟩]⟩]
    ⟨some (.vstr "m1".data), some (.vstr "p1".data),
      [.dict ⟨some (.vstr "production".data), some (.vint 1),
        some (.vtup [.astr "m1".data, .astr "p2".data])⟩]⟩
    "m1".data "p1".data "m1".data "p2".data
    ⟨some (.vstr "production".data), some (.vint 1),
      some (.vtup [.astr "m1".data, .astr "p2".data])⟩
    (List.mem_singleton.mpr rfl) rfl (by decide) rfl (by decide)
    (List.mem_singleton.mpr rfl) rfl rfl (by decide) (by decide) (by decide)
  exact ⟨by decide, h.1, h.2.1⟩

/-- Modelled from the spec: "amount must be a finite numeric value (NaN
and non-numeric rejected)" — the predicate picking out finite numeric
amounts. -/
def finiteNumeric : PyVal → Bool
  | .vint _ => true
  | .vfloat (.finite _) => true
  | _ => false

/-- C4 counterexample: `float('inf')` passes `_is_number` (only NaN has
`x != x`), and a full exchange carrying an infinite amount passes
validation — yet infinity is not a finite numeric value. This refutes
"every accepted amount is finite". -/
theorem C4_counterexample :
    is_number (.vfloat .inf) = true ∧
    finiteNumeric (.vfloat .inf) = false ∧
    validateExc (some (.vstr "m1".data)) (some (.vstr "p1".data))
      (.dict ⟨some (.vstr "biosphere".data), some (.vfloat .inf),
        some (.vtup [.astr "b3".data, .astr "x".data])⟩) = .ok () := by
  refine ⟨rfl, rfl, rfl⟩

/-- C4 (amended): the validator's amount check accepts exactly the int
amounts and the non-NaN float amounts — NaN and non-numeric amounts are
rejected with the non-numeric-amount error — but the infinities are
accepted, so an accepted amount is not necessarily finite. -/
theorem C4_amount_check (amt : PyVal) :
    (is_number amt = true ↔
      ((∃ n : Int, amt = .vint n) ∨
        (∃ f : PyFloat, amt = .vfloat f ∧ f ≠ .nan))) ∧
    (∀ (adb acode : Option PyVal) (t inp : PyVal),
      isValidExcType t = true → validInputFormat inp = true →
      is_number amt = false →
      validateExc adb acode (.dict ⟨some t, some amt, some inp⟩) =
        .error .nonNumericAmount) ∧
    (∀ (adb acode : Option PyVal) (inp : PyVal),
      validInputFormat inp = true → is_number amt = true →
      validateExc adb acode
        (.dict ⟨some (.vstr "biosphere".data), some amt, some inp⟩) =
        .ok ()) := by
  refine ⟨?_, ?_, ?_⟩
  · cases amt with
    | vint n => simp [is_number]
    | vfloat f =>
      cases f with
      | finite q => simp [is_number, pyFloatBeq]
      | inf => simp [is_number, pyFloatBeq]
      | ninf => simp [is_number, pyFloatBeq]
      | nan => simp [is_number, pyFloatBeq]
    | vstr s => simp [is_number]
    | vtup l => simp [is_number]
    | vlist l => simp [is_number]
    | vnone => simp [is_number]
  · intro adb acode t inp hvt hvf hnn
    simp only [validateExc, hvt, hvf, hnn]
    simp
  · intro adb acode inp hvf hnum
    cases inp with
    | vtup l =>
      have hvt2 : isValidExcType (.vstr "biosphere".data) = true := by decide
      simp only [validateExc, hnum, hvf, hvt2]
      simp
    | vstr s => simp [validInputFormat] at hvf
    | vint n => simp [validInputFormat] at hvf
    | vfloat f => simp [validInputFormat] at hvf
    | vlist l => simp [validInputFormat] at hvf
    | vnone => simp [validInputFormat] at hvf

/-- Witness for C4 (amended): a NaN amount is rejected with the
non-numeric-amount error. -/
theorem C4_amount_check_witness :
    isValidExcType (.vstr "biosphere".data) = true ∧
    validInputFormat (.vtup [.astr "b3".data, .astr "x".data]) = true ∧
    is_number (.vfloat .nan) = false ∧
    validateExc Option.none Option.none
      (.dict ⟨some (.vstr "biosphere".data), some (.vfloat .nan),
        some (.vtup [.astr "b3".data, .astr "x".data])⟩) =
      .error .nonNumericAmount :=
  ⟨rfl, by decide, rfl,
    (C4_amount_check (.vfloat .nan)).2.1 Option.none Option.none
      (.vstr "biosphere".data) (.vtup [.astr "b3".data, .astr "x".data])
      rfl (by decide) rfl⟩

/-- C10: the production self-reference check is silently skipped whenever
the owning dataset's database or code is absent, not a string, or empty:
a production exchange with a numeric amount and any well-shaped two-string
reference then passes validation, and no error about its production
target is raised. -/
theorem C10_self_reference_check_skipped (adb acode : Option PyVal)
    (amt : PyVal) (pa pb : Str)
    (hskip : ∀ db cd : Str, ¬ (adb = some (.vstr db) ∧
      acode = some (.vstr cd) ∧ db ≠ [] ∧ cd ≠ []))
    (hnum : is_number amt = true) (hpa : pa ≠ []) (hpb : pb ≠ []) :
    validateExc adb acode
      (.dict ⟨some (.vstr "production".data), some amt,
        some (.vtup [.astr pa, .astr pb])⟩) = .ok () := by
  have hvt : (!isValidExcType (.vstr "production".data)) = false := by decide
  have hnum' : (!is_number amt) = false := by rw [hnum]; rfl
  have hvf : (!validInputFormat (.vtup [.astr pa, .astr pb])) = false := by
    have h1 : pa.isEmpty = false := List.isEmpty_eq_false.mpr hpa
    have h2 : pb.isEmpty = false := List.isEmpty_eq_false.mpr hpb
    simp [validInputFormat, h1, h2]
  simp only [validateExc, hvt, hnum', hvf, Bool.false_eq_true, if_false]
  cases adb with
  | none => simp
  | some v =>
    cases v with
    | vstr db =>
      cases acode with
      | none => simp
      | some w =>
        cases w with
        | vstr cd =>
          by_cases h1 : db = []
          · subst h1
            simp
          · have h2 : cd = [] := by
              by_contra h2
              exact hskip db cd ⟨rfl, rfl, h1, h2⟩
            subst h2
            simp
        | vint n => simp
        | vfloat f => simp
        | vtup l => simp
        | vlist l => simp
        | vnone => simp
    | vint n => simp
    | vfloat f => simp
    | vtup l => simp
    | vlist l => simp
    | vnone => simp

/-- Witness for C10: a dataset with no `database`/`code` fields accepts a
production exchange pointing anywhere. -/
theorem C10_self_reference_check_skipped_witness :
    validateExc Option.none Option.none
      (.dict ⟨some (.vstr "production".data), some (.vint 2),
        some (.vtup [.astr "m1".data, .astr "p2".data])⟩) = .ok () :=
  C10_self_reference_check_skipped Option.none Option.none (.vint 2)
    "m1".data "p2".data
    (fun db cd h => Option.noConfusion h.1) rfl (by decide) (by decide)

/-! ### Technosphere relinking: `_fill_missing_technosphere_inputs` -/

/-- A reference technosphere activity, with dynamically typed fields
(`name`, `reference product`, `location`, `code`). -/
structure TechRef where
  name : Option PyVal
  refproduct : Option PyVal
  location : Option PyVal
  code : Option PyVal
deriving DecidableEq

/-- `_EIKey`: (name, reference product, location). -/
abbrev EIKey := Str × Str × Str

/-- `_build_ecoinvent_index(db_name)`: index the activities whose four
fields are nonempty strings. -/
def build_ecoinvent_index (db : Str) (acts : List TechRef) :
    List (EIKey × (Str × Str)) :=
  acts.foldl (fun idx a =>
    match a.name, a.refproduct, a.location, a.code with
    | some (.vstr n), some (.vstr r), some (.vstr lo), some (.vstr c) =>
      if n.isEmpty || r.isEmpty || lo.isEmpty || c.isEmpty then idx
      else dinsertA idx (n, r, lo) (db, c)
    | _, _, _, _ => idx) []

/-- A technosphere exchange as the relinker sees it: the `.get` fields,
with `input` recording whether the key is present. -/
structure TechExcD where
  etype : Option PyVal
  input : Option PyVal
  database : Option PyVal
  name : Option PyVal
  refproduct : Option PyVal
  location : Option PyVal
deriving DecidableEq

/-- The lazily built per-database index cache (`indices`). -/
abbrev TechIndices := List (Str × List (EIKey × (Str × Str)))

/-- `exc.get("type") != "technosphere"` is the skip condition; only a
string equal to "technosphere" proceeds. -/
def isTechno : Option PyVal → Bool
  | some (.vstr t) => t == "technosphere".data
  | _ => false

/-- One iteration of the exchange loop of
`_fill_missing_technosphere_inputs`: returns the updated index cache, the
(possibly relinked) exchange, and the number of inputs filled (0 or 1).
The function is total — no branch raises. -/
def fillTechnoExc (avail : List (Str × List TechRef)) (indices : TechIndices)
    (exc : TechExcD) : TechIndices × TechExcD × Nat :=
  if !isTechno exc.etype then (indices, exc, 0)
  else if exc.input.isSome then (indices, exc, 0)
  else
    match exc.database, exc.name, exc.refproduct, exc.location with
    | some (.vstr db), some (.vstr n), some (.vstr r), some (.vstr lo) =>
      if db.isEmpty || n.isEmpty || r.isEmpty || lo.isEmpty then
        (indices, exc, 0)
      else
        match lookupA avail db with
        | Option.none => (indices, exc, 0)
        | some acts =>
          let indices2 := if (lookupA indices db).isSome then indices
            else dinsertA indices db (build_ecoinvent_index db acts)
          match lookupA ((lookupA indices2 db).getD []) (n, r, lo) with
          | some hit =>
            (indices2, { exc with input := some (.vtup [.astr hit.1, .astr hit.2]) }, 1)
          | Option.none => (indices2, exc, 0)
    | _, _, _, _ => (indices, exc, 0)

/-- The exchange loop over a whole batch, threading the cache and the
fixed count. -/
def fillTechnoLoop (avail : List (Str × List TechRef)) :
    TechIndices → Nat → List TechExcD → TechIndices × List TechExcD × Nat
  | indices, fixed, [] => (indices, [], fixed)
  | indices, fixed, exc :: rest =>
    let r := fillTechnoExc avail indices exc
    let rr := fillTechnoLoop avail r.1 (fixed + r.2.2) rest
    (rr.1, r.2.1 :: rr.2.1, rr.2.2)

/-- `_fill_missing_technosphere_inputs` over the flattened exchange
sequence of the batch. -/
def fill_missing_technosphere_inputs (avail : List (Str × List TechRef))
    (excs : List TechExcD) : TechIndices × List TechExcD × Nat :=
  fillTechnoLoop avail [] 0 excs

theorem lookupA_dinsertA_ne {α β : Type} [DecidableEq α]
    {l : List (α × β)} {k k' : α} (h : k ≠ k') (v : β) :
    lookupA (dinsertA l k' v) k = lookupA l k := by
  induction l with
  | nil => simp [dinsertA, lookupA, h]
  | cons p rest ih =>
    obtain ⟨k2, v2⟩ := p
    by_cases h2 : k' = k2
    · subst h2
      simp [dinsertA, lookupA, h]
    · simp only [dinsertA, if_neg h2, lookupA]
      by_cases h3 : k = k2
      · simp [h3]
      · simp [h3, ih]

theorem fillTechnoExc_preserves_absent (avail : List (Str × List TechRef))
    (indices : TechIndices) (exc : TechExcD) (d : Str)
    (hd : lookupA avail d = Option.none)
    (hi : lookupA indices d = Option.none) :
    lookupA (fillTechnoExc avail indices exc).1 d = Option.none := by
  unfold fillTechnoExc
  split
  · exact hi
  · split
    · exact hi
    · split
      · next db n r lo hdb hn hr hlo =>
        split
        · exact hi
        · split
          · exact hi
          · next acts hacts =>
            have hne : d ≠ db := by
              intro he
              rw [he, hacts] at hd
              cases hd
            split
            · next hsome =>
              cases hm : lookupA ((lookupA indices db).getD []) (n, r, lo) with
              | some hit =>
                simp only [hm]
                exact hi
              | none =>
                simp only [hm]
                exact hi
            · next hsome =>
              cases hm : lookupA ((lookupA (dinsertA indices db
                  (build_ecoinvent_index db acts)) db).getD []) (n, r, lo) with
              | some hit =>
                simp only [hm]
                rw [lookupA_dinsertA_ne hne]
                exact hi
              | none =>
                simp only [hm]
                rw [lookupA_dinsertA_ne hne]
                exact hi
      · exact hi

theorem fillTechnoLoop_preserves_absent (avail : List (Str × List TechRef))
    (d : Str) (hd : lookupA avail d = Option.none) :
    ∀ (excs : List TechExcD) (ind0 : TechIndices) (fx : Nat),
      lookupA ind0 d = Option.none →
      lookupA (fillTechnoLoop avail ind0 fx excs).1 d = Option.none := by
  intro excs
  induction excs with
  | nil => intro ind0 fx hi; exact hi
  | cons e rest ih =>
    intro ind0 fx hi
    exact ih _ _ (fillTechnoExc_preserves_absent avail ind0 e d hd hi)

/-- C9: a technosphere exchange lacking an input whose source database is
not among the available databases is skipped benignly — the exchange is
left unresolved unchanged, nothing is counted as fixed and no index is
built for that database, with the whole pass building no index for an
unavailable database; by contrast, the biosphere path with no reference
data and synthetic fallback disabled ends in the fatal unresolved error. -/
theorem C9_unknown_database_benign_skip (avail : List (Str × List TechRef))
    (indices : TechIndices) (exc : TechExcD) (db n r lo : Str)
    (ht : exc.etype = some (.vstr "technosphere".data))
    (hni : exc.input = Option.none)
    (hdb : exc.database = some (.vstr db)) (hdbne : db ≠ [])
    (hn : exc.name = some (.vstr n)) (hnne : n ≠ [])
    (hr : exc.refproduct = some (.vstr r)) (hrne : r ≠ [])
    (hlo : exc.location = some (.vstr lo)) (hlone : lo ≠ [])
    (hunknown : lookupA avail db = Option.none) :
    fillTechnoExc avail indices exc = (indices, exc, 0) ∧
    (∀ (excs : List TechExcD) (fx : Nat) (d : Str),
      lookupA avail d = Option.none →
      lookupA (fillTechnoLoop avail [] fx excs).1 d = Option.none) ∧
    (∀ (name_map : List (Str × Str)) (hash : Str → Str) (customDb : Str)
      (st : Store) (bexc : BioExcIn),
      resolveBioExc [] [] name_map false hash customDb st bexc =
        .unresolvedError) := by
  refine ⟨?_, ?_, ?_⟩
  · have e1 : db.isEmpty = false := List.isEmpty_eq_false.mpr hdbne
    have e2 : n.isEmpty = false := List.isEmpty_eq_false.mpr hnne
    have e3 : r.isEmpty = false := List.isEmpty_eq_false.mpr hrne
    have e4 : lo.isEmpty = false := List.isEmpty_eq_false.mpr hlone
    simp [fillTechnoExc, isTechno, ht, hni, hdb, hn, hr, hlo, hunknown,
      e1, e2, e3, e4]
  · intro excs fx d hd
    exact fillTechnoLoop_preserves_absent avail d hd excs [] fx rfl
  · intro name_map hash customDb st bexc
    rfl

/-- Witness for C9: a concrete technosphere exchange against an empty set
of available databases is returned untouched. -/
theorem C9_unknown_database_benign_skip_witness :
    lookupA ([] : List (Str × List TechRef)) "db1".data = Option.none ∧
    fillTechnoExc [] []
      ⟨some (.vstr "technosphere".data), Option.none,
        some (.vstr "db1".data), some (.vstr "act".data),
        some (.vstr "prod".data), some (.vstr "GLO".data)⟩ =
      ([], ⟨some (.vstr "technosphere".data), Option.none,
        some (.vstr "db1".data), some (.vstr "act".data),
        some (.vstr "prod".data), some (.vstr "GLO".data)⟩, 0) :=
  ⟨rfl,
    (C9_unknown_database_benign_skip [] []
      ⟨some (.vstr "technosphere".data), Option.none,
        some (.vstr "db1".data), some (.vstr "act".data),
        some (.vstr "prod".data), some (.vstr "GLO".data)⟩
      "db1".data "act".data "prod".data "GLO".data
      rfl rfl rfl (by decide) rfl (by decide) rfl (by decide) rfl
      (by decide) rfl).1⟩

end LCI
